import Mathlib

/-!
# Verification of the GlanceThing settings store (`src/main/lib/storage.ts`)

Shallow embedding of the file-backed key/value settings store: a JSON
document on disk, optional at-rest encryption through the platform
`safeStorage` capability, post-write handler dispatch, and lazy secret
provisioning (`getSocketPassword`).

Modelling choices:
* JavaScript values stored in the document are modelled by `JValue`
  (string, boolean, integer number, null — the JSON-representable scalars
  the store traffics in).
* The backing file is modelled by `FileState`: absent, present with
  contents that do not parse to a JSON object, or present with a parsed
  object.  JSON serialisation is exact on our value type, so
  `writeStorage` stores the document structurally.
* All observable effects (log lines, file writes, handler invocations)
  are recorded in an event trace, so ordering claims ("after the write")
  and counting claims ("exactly once") are statable.
* The platform `safeStorage` capability (Electron, external to the
  repository) and the `random` helper are abstracted into an `Env`
  record; the hex (de)serialisation done by `Buffer` is modelled
  concretely.  `decryptString` is modelled as total; no claim exercises
  its failure on malformed ciphertext.
* `async` functions suspend only around file I/O and the component is
  single-process, so operations are modelled as sequential state-passing
  functions on a `World`.
-/

/-- A JSON-representable scalar value as stored in the settings document. -/
inductive JValue where
  | vStr (s : String)
  | vBool (b : Bool)
  | vNum (n : Int)
  | vNull
deriving DecidableEq, Repr

/-- JavaScript `String(value)` coercion on stored scalars
(numbers are modelled as integers). -/
def jsToString : JValue → String
  | .vStr s => s
  | .vBool b => if b then "true" else "false"
  | .vNum n => toString n
  | .vNull => "null"

/-- JavaScript truthiness test (`!value` is `jsFalsy value`). -/
def jsFalsy : JValue → Bool
  | .vStr s => s = ""
  | .vBool b => !b
  | .vNum n => n = 0
  | .vNull => true

/-- Whether a value is a string (used to state coercion claims). -/
def JValue.isStr : JValue → Bool
  | .vStr _ => true
  | _ => false

/-- The parsed settings document: key/value bindings in insertion order,
keys pairwise distinct (as in a JavaScript object). -/
abbrev Doc : Type := List (String × JValue)

/-- `storage[key]` lookup. -/
def docGet : Doc → String → Option JValue
  | [], _ => none
  | (k', v') :: rest, k => if k' = k then some v' else docGet rest k

/-- `storage[key] = value`: replace in place if present, else append. -/
def docSet : Doc → String → JValue → Doc
  | [], k, v => [(k, v)]
  | (k', v') :: rest, k, v =>
      if k' = k then (k, v) :: rest else (k', v') :: docSet rest k v

/-- Contents of the backing `storage.json` file, as far as parsing is
concerned: either text that does not parse to a JSON object, or a JSON
object. -/
inductive FileContent where
  | invalid
  | object (d : Doc)
deriving DecidableEq

/-- The backing file: `none` when the file does not exist. -/
abbrev FileState : Type := Option FileContent

/-- Modelled from the spec: `safeParse` lives in `src/main/lib/utils.ts`,
which is not in the repository snapshot; per the spec it "returns a
recoverable empty value on malformed input", i.e. `null` when the text is
not well-formed (so `safeParse(storage) || {}` yields the empty
document). -/
def safeParse : FileContent → Option Doc
  | .invalid => none
  | .object d => some d

/-- The parsed view of the backing file (empty document when the file is
missing or malformed). -/
def docOf : FileState → Doc
  | some (.object d) => d
  | _ => []

/-- One observable effect of the store. -/
inductive StoreEvent where
  | logged (msg scope : String)
  | wrote (d : Doc)
  | handlerCalled (key : String) (value : JValue)
deriving DecidableEq

/-- The state threaded through the store's operations: the backing file
and the trace of observable effects so far. -/
structure World where
  file : FileState
  events : List StoreEvent
deriving DecidableEq

/-- The ambient capabilities the store imports: the platform
`safeStorage` secret-encryption capability (Electron; external to the
repository, abstracted per spec §6 as `isAvailable`/`encrypt`/`decrypt`
where `decrypt` reverses `encrypt`), and — modelled from the spec, since
`src/main/lib/utils.ts` is not in the snapshot — `random n`, "a fresh
random string" of `n` characters. -/
structure Env where
  isEncryptionAvailable : Bool
  encryptString : String → List (Fin 256)
  decryptString : List (Fin 256) → String
  random : Nat → String

/-- `log(msg, scope)` from `utils.ts`, modelled as an event. -/
def logw (w : World) (msg scope : String) : World :=
  { w with events := w.events ++ [.logged msg scope] }

/-- `getStoragePath`: resolves the path and seeds the file with `'{}'`
when it does not exist (the path itself is a fixed constant and is not
modelled). -/
def getStoragePath (w : World) : World :=
  match w.file with
  | none => { file := some (.object []), events := w.events ++ [.wrote []] }
  | some _ => w

/-- `getStorage`: ensure the file exists, read it, and parse with
`safeParse(storage) || {}`. -/
def getStorage (w : World) : World × Doc :=
  let w := getStoragePath w
  match w.file with
  | some c => (w, (safeParse c).getD [])
  | none => (w, [])

/-- `writeStorage`: serialise the whole document back to the file. -/
def writeStorage (w : World) (storage : Doc) : World :=
  let w := getStoragePath w
  { file := some (.object storage), events := w.events ++ [.wrote storage] }

/-- Lowercase hex digit for `d < 16` (`'0'..'9'`, `'a'..'f'`). -/
def hexDigit (d : Nat) : Char :=
  if d < 10 then Char.ofNat (48 + d) else Char.ofNat (87 + d)

/-- `buffer.toString('hex')`: two lowercase hex digits per byte. -/
def hexChars : List (Fin 256) → List Char
  | [] => []
  | b :: bs => hexDigit (b.val / 16) :: hexDigit (b.val % 16) :: hexChars bs

/-- `Buffer.prototype.toString('hex')` as a string. -/
def hexOfBytes (bs : List (Fin 256)) : String := String.mk (hexChars bs)

/-- Value of a hex digit character (either case), as `Buffer.from(·,'hex')`
accepts. -/
def hexVal (c : Char) : Option (Fin 16) :=
  if h : 48 ≤ c.toNat ∧ c.toNat ≤ 57 then some ⟨c.toNat - 48, by omega⟩
  else if h : 97 ≤ c.toNat ∧ c.toNat ≤ 102 then some ⟨c.toNat - 87, by omega⟩
  else if h : 65 ≤ c.toNat ∧ c.toNat ≤ 70 then some ⟨c.toNat - 55, by omega⟩
  else none

/-- Decode hex digit pairs into bytes, stopping at the first
non-hex-pair (as `Buffer.from(s, 'hex')` truncates). -/
def decodeHexChars : List Char → List (Fin 256)
  | c1 :: c2 :: rest =>
    match hexVal c1, hexVal c2 with
    | some h, some l => ⟨16 * h.val + l.val, by omega⟩ :: decodeHexChars rest
    | _, _ => []
  | _ => []

/-- `Buffer.from(s, 'hex')`. -/
def hexDecode (s : String) : List (Fin 256) := decodeHexChars s.data

/-- The key set of `storageValueHandlers`: the fixed handler registry.
The handler bodies (`app.setLoginItemSettings`, `updateTime`) act on
collaborators outside the store and are modelled as `handlerCalled`
events. -/
def storageValueHandlers : List String :=
  ["launchOnStartup", "timeFormat", "dateFormat"]

/-- `getStorageValue(key, secure)`.  Returns `Except` to model a
JavaScript throw: `Buffer.from(value, 'hex')` throws a `TypeError` when
the stored value is not a string. -/
def getStorageValue (env : Env) (key : String) (secure : Bool)
    (w : World) : World × Except String JValue :=
  let w := logw w ("Getting value for key: " ++ key) "Storage"
  let p := getStorage w
  let w := p.1
  match docGet p.2 key with
  | none => (w, .ok .vNull)
  | some value =>
    if secure then
      if !env.isEncryptionAvailable then
        (logw w "WARNING: Encryption is not available, returning value as is."
          "Storage", .ok value)
      else
        match value with
        | .vStr s => (w, .ok (.vStr (env.decryptString (hexDecode s))))
        | _ => (w, .error "TypeError")
    else (w, .ok value)

/-- `setStorageValue(key, value, secure)`.  Note the source reassigns
`value` to the hex ciphertext before the write, and the handler is later
invoked with that same (reassigned) variable. -/
def setStorageValue (env : Env) (key : String) (value : JValue)
    (secure : Bool) (w : World) : World :=
  let w := logw w ("Setting value for key: " ++ key) "Storage"
  let p :=
    if secure then
      if !env.isEncryptionAvailable then
        (logw w "WARNING: Encryption is not available, storing value as is."
          "Storage", value)
      else
        (w, JValue.vStr (hexOfBytes (env.encryptString (jsToString value))))
    else (w, value)
  let w := p.1
  let value := p.2
  let q := getStorage w
  let storage := docSet q.2 key value
  let w := writeStorage q.1 storage
  if storageValueHandlers.contains key then
    let w := logw w ("Running handler for key: " ++ key) "Storage"
    { w with events := w.events ++ [.handlerCalled key value] }
  else w

/-- `getSocketPassword()`: get-or-create the secure socket password. -/
def getSocketPassword (env : Env) (w : World) :
    World × Except String JValue :=
  let p := getStorageValue env "socketPassword" true w
  let w := p.1
  match p.2 with
  | .error e => (w, .error e)
  | .ok socketPassword =>
    if jsFalsy socketPassword then
      let pw := env.random 64
      let w := setStorageValue env "socketPassword" (.vStr pw) true w
      (w, .ok (.vStr pw))
    else (w, .ok socketPassword)

/-- `getSpotifyDc()`. -/
def getSpotifyDc (env : Env) (w : World) : World × Except String JValue :=
  getStorageValue env "sp_dc" true w

/-- `setSpotifyDc(dc)`. -/
def setSpotifyDc (env : Env) (dc : String) (w : World) : World :=
  setStorageValue env "sp_dc" (.vStr dc) true w

/-! ## Basic lemmas: documents, hex encoding, character bounds -/

theorem docGet_docSet_self (d : Doc) (k : String) (v : JValue) :
    docGet (docSet d k v) k = some v := by
  induction d with
  | nil => simp [docGet, docSet]
  | cons p rest ih =>
    by_cases h : p.1 = k
    · simp [docSet, docGet, h]
    · simp [docSet, docGet, h, ih]

theorem docGet_docSet_ne (d : Doc) (k k' : String) (v : JValue)
    (h : k' ≠ k) : docGet (docSet d k v) k' = docGet d k' := by
  have h' : ¬ k = k' := fun e => h (Eq.symm e)
  induction d with
  | nil => simp [docGet, docSet, h']
  | cons p rest ih =>
    by_cases hp : p.1 = k
    · have hp' : ¬ p.1 = k' := by rw [hp]; exact h'
      simp [docSet, docGet, hp, h', hp']
    · simp only [docSet, docGet, hp, if_false]
      by_cases hq : p.1 = k' <;> simp [hq, ih]

theorem char_toNat_lt (c : Char) : c.toNat < 1114112 := by
  rcases c.valid with h | h
  · exact Nat.lt_trans h (by decide)
  · exact h.2

theorem hexVal_hexDigit : ∀ d : Fin 16, hexVal (hexDigit d.val) = some d := by
  decide

theorem decodeHexChars_hexChars (bs : List (Fin 256)) :
    decodeHexChars (hexChars bs) = bs := by
  induction bs with
  | nil => rfl
  | cons b bs ih =>
    have h1 := hexVal_hexDigit ⟨b.val / 16, by omega⟩
    have h2 := hexVal_hexDigit ⟨b.val % 16, by omega⟩
    simp only [hexChars, decodeHexChars, h1, h2, ih]
    refine List.cons_eq_cons.mpr ⟨?_, rfl⟩
    exact Fin.ext (by have := b.isLt; simp; omega)

theorem hexDecode_hexOfBytes (bs : List (Fin 256)) :
    hexDecode (hexOfBytes bs) = bs :=
  decodeHexChars_hexChars bs

/-- A lowercase hexadecimal digit character. -/
def isLowerHex (c : Char) : Bool :=
  (48 ≤ c.toNat && c.toNat ≤ 57) || (97 ≤ c.toNat && c.toNat ≤ 102)

theorem isLowerHex_hexDigit : ∀ d : Fin 16, isLowerHex (hexDigit d.val) = true := by
  decide

theorem hexChars_all_isLowerHex (bs : List (Fin 256)) :
    (hexChars bs).all isLowerHex = true := by
  induction bs with
  | nil => rfl
  | cons b bs ih =>
    have h1 := isLowerHex_hexDigit ⟨b.val / 16, by omega⟩
    have h2 := isLowerHex_hexDigit ⟨b.val % 16, by omega⟩
    simp only [hexChars, List.all_cons, h1, h2, ih, Bool.and_self]

theorem hexChars_length (bs : List (Fin 256)) :
    (hexChars bs).length = 2 * bs.length := by
  induction bs with
  | nil => rfl
  | cons b bs ih => simp [hexChars, ih]; omega

theorem hexOfBytes_length (bs : List (Fin 256)) :
    (hexOfBytes bs).length = 2 * bs.length :=
  hexChars_length bs

theorem hexOfBytes_all_isLowerHex (bs : List (Fin 256)) :
    (hexOfBytes bs).data.all isLowerHex = true :=
  hexChars_all_isLowerHex bs

/-! ## A concrete roundtrip-correct codec (for witnesses and
counterexamples): each character is spelled as three bytes -/

/-- Three-byte big-endian spelling of a character's code point. -/
def charBytes (c : Char) : List (Fin 256) :=
  [⟨c.toNat / 65536, by have := char_toNat_lt c; omega⟩,
   ⟨c.toNat / 256 % 256, by omega⟩,
   ⟨c.toNat % 256, by omega⟩]

/-- Encode a character list, three bytes per character. -/
def encChars : List Char → List (Fin 256)
  | [] => []
  | c :: cs => charBytes c ++ encChars cs

/-- Decode three-byte groups back into characters. -/
def decChars : List (Fin 256) → List Char
  | a :: b :: c :: rest =>
      Char.ofNat (65536 * a.val + 256 * b.val + c.val) :: decChars rest
  | _ => []

theorem decChars_encChars (l : List Char) : decChars (encChars l) = l := by
  induction l with
  | nil => rfl
  | cons c cs ih =>
    have hc : 65536 * (c.toNat / 65536) + 256 * (c.toNat / 256 % 256) +
        c.toNat % 256 = c.toNat := by omega
    have he : encChars (c :: cs) = charBytes c ++ encChars cs := rfl
    rw [he]
    simp [charBytes, decChars, hc, Char.ofNat_toNat, ih]

/-- A total injective "encryption": the UTF-32-ish byte spelling. -/
def encBytes (s : String) : List (Fin 256) := encChars s.data

/-- Inverse of `encBytes`. -/
def decBytes (bs : List (Fin 256)) : String := String.mk (decChars bs)

theorem decBytes_encBytes (s : String) : decBytes (encBytes s) = s := by
  cases s with
  | mk data => simp [decBytes, encBytes, decChars_encChars]

/-- A roundtrip-correct "encryption" with a fixed point of the whole
encode-then-hex pipeline: it maps `"aa"` to the single byte `0xaa`,
whose hex spelling is again `"aa"`. -/
def encFix (s : String) : List (Fin 256) :=
  if s = "aa" then [⟨170, by omega⟩] else ⟨0, by omega⟩ :: encBytes s

/-- Inverse of `encFix` on its image. -/
def decFix : List (Fin 256) → String
  | [] => ""
  | b :: rest =>
      if b.val = 0 then decBytes rest
      else if b.val = 170 && rest.isEmpty then "aa" else ""

theorem decFix_encFix (s : String) : decFix (encFix s) = s := by
  by_cases h : s = "aa"
  · subst h
    decide
  · simp [encFix, decFix, h, decBytes_encBytes]

/-- A concrete environment with encryption available. -/
def testEnv : Env :=
  ⟨true, encBytes, decBytes, fun n => String.mk (List.replicate n 'p')⟩

/-- A concrete environment with encryption unavailable. -/
def testEnvOff : Env :=
  ⟨false, encBytes, decBytes, fun n => String.mk (List.replicate n 'p')⟩

/-- A concrete environment whose (roundtrip-correct) encryption leaves
the plaintext `"aa"` stored as `"aa"`. -/
def fixEnv : Env :=
  ⟨true, encFix, decFix, fun n => String.mk (List.replicate n 'p')⟩

theorem testEnv_roundtrip :
    ∀ s, testEnv.decryptString (testEnv.encryptString s) = s :=
  decBytes_encBytes

theorem fixEnv_roundtrip :
    ∀ s, fixEnv.decryptString (fixEnv.encryptString s) = s :=
  decFix_encFix

/-! ## Specification equations for the store operations -/

/-- The file state after any operation's "ensure the file exists" step. -/
def ensureF : FileState → FileState
  | none => some (.object [])
  | some c => some c

/-- The representation `setStorageValue` actually persists (and hands to
the handler): the value itself, except the hex ciphertext of
`String(value)` when `secure` and encryption is available. -/
def storedRep (env : Env) (secure : Bool) (v : JValue) : JValue :=
  if secure then
    if !env.isEncryptionAvailable then v
    else .vStr (hexOfBytes (env.encryptString (jsToString v)))
  else v

/-- The return value of `getStorageValue` as a function of the parsed
document. -/
def getPure (env : Env) (key : String) (secure : Bool) (d : Doc) :
    Except String JValue :=
  match docGet d key with
  | none => .ok .vNull
  | some value =>
    if secure then
      if !env.isEncryptionAvailable then .ok value
      else
        match value with
        | .vStr s => .ok (.vStr (env.decryptString (hexDecode s)))
        | _ => .error "TypeError"
    else .ok value

theorem getStorage_eq (w : World) :
    getStorage w =
      ({ file := ensureF w.file,
         events := w.events ++ (if w.file = none then [.wrote []] else []) },
       docOf w.file) := by
  rcases w with ⟨file, events⟩
  match file with
  | none => simp [getStorage, getStoragePath, safeParse, docOf, ensureF]
  | some .invalid => simp [getStorage, getStoragePath, safeParse, docOf, ensureF]
  | some (.object d) => simp [getStorage, getStoragePath, safeParse, docOf, ensureF]

theorem getStorageValue_eq (env : Env) (key : String) (secure : Bool)
    (w : World) :
    getStorageValue env key secure w =
      ({ file := ensureF w.file,
         events := w.events
           ++ [.logged ("Getting value for key: " ++ key) "Storage"]
           ++ (if w.file = none then [.wrote []] else [])
           ++ (if secure && !env.isEncryptionAvailable
                  && (docGet (docOf w.file) key).isSome
               then [.logged
                 "WARNING: Encryption is not available, returning value as is."
                 "Storage"]
               else []) },
       getPure env key secure (docOf w.file)) := by
  rcases w with ⟨file, events⟩
  rcases file with _ | (_ | d)
  · rcases secure with _ | _ <;>
      rcases henc : env.isEncryptionAvailable with _ | _ <;>
        simp [getStorageValue, getStorage, getStoragePath, logw, getPure,
          safeParse, docOf, docGet, ensureF, henc]
  · rcases secure with _ | _ <;>
      rcases henc : env.isEncryptionAvailable with _ | _ <;>
        simp [getStorageValue, getStorage, getStoragePath, logw, getPure,
          safeParse, docOf, docGet, ensureF, henc]
  · rcases hd : docGet d key with _ | value
    · rcases secure with _ | _ <;>
        rcases henc : env.isEncryptionAvailable with _ | _ <;>
          simp [getStorageValue, getStorage, getStoragePath, logw, getPure,
            safeParse, docOf, ensureF, hd, henc]
    · rcases value with s | b | n | _ <;>
        rcases secure with _ | _ <;>
          rcases henc : env.isEncryptionAvailable with _ | _ <;>
            simp [getStorageValue, getStorage, getStoragePath, logw, getPure,
              safeParse, docOf, ensureF, hd, henc]

theorem setStorageValue_eq (env : Env) (key : String) (v : JValue)
    (secure : Bool) (w : World) :
    setStorageValue env key v secure w =
      { file := some (.object (docSet (docOf w.file) key
          (storedRep env secure v))),
        events := w.events
          ++ [.logged ("Setting value for key: " ++ key) "Storage"]
          ++ (if secure && !env.isEncryptionAvailable
              then [.logged
                "WARNING: Encryption is not available, storing value as is."
                "Storage"]
              else [])
          ++ (if w.file = none then [.wrote []] else [])
          ++ [.wrote (docSet (docOf w.file) key (storedRep env secure v))]
          ++ (if storageValueHandlers.contains key
              then [.logged ("Running handler for key: " ++ key) "Storage",
                    .handlerCalled key (storedRep env secure v)]
              else []) } := by
  rcases w with ⟨file, events⟩
  rcases secure with _ | _ <;>
    rcases henc : env.isEncryptionAvailable with _ | _ <;>
      by_cases hh : key ∈ storageValueHandlers <;>
        rcases file with _ | (_ | d) <;>
          simp [setStorageValue, getStorage, getStoragePath, writeStorage,
            logw, storedRep, safeParse, docOf, ensureF, henc, hh]

/-! ## Event-trace views and `ensureF` facts -/

/-- The documents written to disk, in order, within an event trace. -/
def evWrites : List StoreEvent → List Doc
  | [] => []
  | .wrote d :: rest => d :: evWrites rest
  | .logged _ _ :: rest => evWrites rest
  | .handlerCalled _ _ :: rest => evWrites rest

/-- The handler invocations, in order, within an event trace. -/
def evHandlers : List StoreEvent → List (String × JValue)
  | [] => []
  | .handlerCalled k v :: rest => (k, v) :: evHandlers rest
  | .logged _ _ :: rest => evHandlers rest
  | .wrote _ :: rest => evHandlers rest

theorem evWrites_append (l1 l2 : List StoreEvent) :
    evWrites (l1 ++ l2) = evWrites l1 ++ evWrites l2 := by
  induction l1 with
  | nil => rfl
  | cons e rest ih => rcases e with _ | _ | _ <;> simp [evWrites, ih]

theorem evHandlers_append (l1 l2 : List StoreEvent) :
    evHandlers (l1 ++ l2) = evHandlers l1 ++ evHandlers l2 := by
  induction l1 with
  | nil => rfl
  | cons e rest ih => rcases e with _ | _ | _ <;> simp [evHandlers, ih]

theorem docOf_ensureF (f : FileState) : docOf (ensureF f) = docOf f := by
  rcases f with _ | (_ | d) <;> rfl

theorem docOf_object (d : Doc) : docOf (some (.object d)) = d := rfl

theorem ensureF_some (c : FileContent) : ensureF (some c) = some c := rfl

theorem ensureF_idem (f : FileState) : ensureF (ensureF f) = ensureF f := by
  rcases f with _ | (_ | d) <;> rfl

theorem ensureF_ne_none (f : FileState) : ensureF f ≠ none := by
  rcases f with _ | (_ | d) <;> simp [ensureF]

/-! ## Pure views of `getSocketPassword` -/

/-- The value `getSocketPassword` returns, as a function of the backing
file. -/
def gspResult (env : Env) (f : FileState) : Except String JValue :=
  match getPure env "socketPassword" true (docOf f) with
  | .error e => .error e
  | .ok v =>
      if jsFalsy v then .ok (.vStr (env.random 64)) else .ok v

/-- The backing file `getSocketPassword` leaves behind, as a function of
the file it started from. -/
def gspFile (env : Env) (f : FileState) : FileState :=
  match getPure env "socketPassword" true (docOf f) with
  | .error _ => ensureF f
  | .ok v =>
      if jsFalsy v then
        some (.object (docSet (docOf f) "socketPassword"
          (storedRep env true (.vStr (env.random 64)))))
      else ensureF f

/-- The document writes `getSocketPassword` performs beyond the
seed-the-missing-file write, as a function of the starting file. -/
def gspSetWrites (env : Env) (f : FileState) : List Doc :=
  match getPure env "socketPassword" true (docOf f) with
  | .error _ => []
  | .ok v =>
      if jsFalsy v then
        [docSet (docOf f) "socketPassword"
          (storedRep env true (.vStr (env.random 64)))]
      else []

theorem socketPassword_not_handled :
    "socketPassword" ∉ storageValueHandlers := by decide

theorem getSocketPassword_spec (env : Env) (w : World) :
    (getSocketPassword env w).1.file = gspFile env w.file
    ∧ (getSocketPassword env w).2 = gspResult env w.file
    ∧ evWrites (getSocketPassword env w).1.events
      = evWrites w.events ++ (if w.file = none then [([] : Doc)] else [])
        ++ gspSetWrites env w.file := by
  unfold getSocketPassword
  rw [getStorageValue_eq]
  rcases hr : getPure env "socketPassword" true (docOf w.file) with e | v
  · simp [gspFile, gspResult, gspSetWrites, hr, evWrites_append, evWrites,
      apply_ite evWrites]
  · rcases hv : jsFalsy v with _ | _
    · simp [gspFile, gspResult, gspSetWrites, hr, hv, evWrites_append,
        evWrites, apply_ite evWrites]
    · simp [gspFile, gspResult, gspSetWrites, hr, hv, setStorageValue_eq,
        evWrites_append, evWrites, docOf_ensureF, ensureF_ne_none,
        socketPassword_not_handled, apply_ite evWrites]

theorem gsp_stable_file (env : Env) (f : FileState)
    (hrt : ∀ s, env.decryptString (env.encryptString s) = s)
    (hrand : env.random 64 ≠ "") :
    gspResult env (gspFile env f) = gspResult env f
    ∧ gspFile env (gspFile env f) = gspFile env f
    ∧ gspSetWrites env (gspFile env f) = []
    ∧ gspFile env f ≠ none := by
  rcases hr : getPure env "socketPassword" true (docOf f) with e | v
  · simp [gspFile, gspResult, gspSetWrites, hr, docOf_ensureF,
      ensureF_idem, ensureF_ne_none]
  · rcases hv : jsFalsy v with _ | _
    · simp [gspFile, gspResult, gspSetWrites, hr, hv, docOf_ensureF,
        ensureF_idem, ensureF_ne_none]
    · have hget : getPure env "socketPassword" true
          (docSet (docOf f) "socketPassword"
            (storedRep env true (.vStr (env.random 64))))
          = .ok (.vStr (env.random 64)) := by
        rcases henc : env.isEncryptionAvailable with _ | _
        · simp [getPure, docGet_docSet_self, storedRep, henc]
        · simp [getPure, docGet_docSet_self, storedRep, henc, jsToString,
            hexDecode_hexOfBytes, hrt]
      have hnf : jsFalsy (.vStr (env.random 64)) = false := by
        simp [jsFalsy, hrand]
      have hfile : gspFile env f = some (.object (docSet (docOf f)
          "socketPassword" (storedRep env true (.vStr (env.random 64))))) := by
        simp [gspFile, hr, hv]
      have hok : gspResult env f = .ok (.vStr (env.random 64)) := by
        simp [gspResult, hr, hv]
      rw [hfile, hok]
      simp only [gspResult, gspFile, gspSetWrites, docOf_object, hget, hnf,
        ensureF_some]
      simp

/-! ## Claims -/

/-- An even-length string of lowercase hex digits — the only shape a hex
ciphertext spelling can take. -/
def evenLowerHex (s : String) : Bool :=
  s.data.all isLowerHex && s.length % 2 = 0

theorem evenLowerHex_hexOfBytes (bs : List (Fin 256)) :
    evenLowerHex (hexOfBytes bs) = true := by
  simp [evenLowerHex, hexOfBytes_all_isLowerHex, hexOfBytes_length,
    Nat.mul_mod_right]

/-- C1 (amended): with encryption available and a roundtrip-correct
capability, `setStorageValue(k, v, secure=true)` followed by
`getStorageValue(k, secure=true)` returns `v`; the on-disk representation
under `k` is the lowercase-hex spelling of the ciphertext of `v`, and it
differs from `v` whenever `v` is not itself an even-length string of
lowercase hex digits.  (For an arbitrary roundtrip-correct capability the
on-disk representation can coincide with `v` when `v` has that hex shape
— see the counterexample.) -/
theorem claim_C1_secure_roundtrip (env : Env) (k v : String) (w : World)
    (havail : env.isEncryptionAvailable = true)
    (hrt : ∀ s, env.decryptString (env.encryptString s) = s) :
    (getStorageValue env k true (setStorageValue env k (.vStr v) true w)).2
      = .ok (.vStr v)
    ∧ docGet (docOf (setStorageValue env k (.vStr v) true w).file) k
      = some (.vStr (hexOfBytes (env.encryptString v)))
    ∧ (evenLowerHex v = false →
        docGet (docOf (setStorageValue env k (.vStr v) true w).file) k
          ≠ some (.vStr v)) := by
  have hstored : docGet (docOf (setStorageValue env k (.vStr v) true w).file) k
      = some (.vStr (hexOfBytes (env.encryptString v))) := by
    rw [setStorageValue_eq]
    simp [docOf_object, docGet_docSet_self, storedRep, havail, jsToString]
  refine ⟨?_, hstored, ?_⟩
  · rw [setStorageValue_eq, getStorageValue_eq]
    simp [getPure, docOf_object, docGet_docSet_self, storedRep, havail,
      jsToString, hexDecode_hexOfBytes, hrt]
  · intro hv heq
    rw [hstored] at heq
    have : hexOfBytes (env.encryptString v) = v := by
      simpa using heq
    rw [← this, evenLowerHex_hexOfBytes] at hv
    simp at hv

/-- C1 does not hold as stated: over roundtrip-correct encryption
capabilities, the on-disk representation can equal the plaintext.  With
`fixEnv` (encryption available, decrypt∘encrypt the identity) and
`v = "aa"`, the stored representation under the key is exactly `"aa"`. -/
theorem claim_C1_counterexample :
    ¬ (∀ (env : Env) (k v : String) (w : World),
        env.isEncryptionAvailable = true →
        (∀ s, env.decryptString (env.encryptString s) = s) →
        (getStorageValue env k true
            (setStorageValue env k (.vStr v) true w)).2 = .ok (.vStr v)
        ∧ docGet (docOf (setStorageValue env k (.vStr v) true w).file) k
          ≠ some (.vStr v)) := by
  intro h
  have hc := (h fixEnv "k" "aa" ⟨none, []⟩ rfl fixEnv_roundtrip).2
  apply hc
  decide

/-- C1 witness: concrete secure round-trip with a non-hex plaintext
(`"secret"`), whose stored representation provably differs from it. -/
theorem claim_C1_witness :
    (getStorageValue testEnv "k" true
        (setStorageValue testEnv "k" (.vStr "secret") true ⟨none, []⟩)).2
      = .ok (.vStr "secret")
    ∧ docGet (docOf (setStorageValue testEnv "k" (.vStr "secret") true
        ⟨none, []⟩).file) "k"
      = some (.vStr (hexOfBytes (testEnv.encryptString "secret")))
    ∧ docGet (docOf (setStorageValue testEnv "k" (.vStr "secret") true
        ⟨none, []⟩).file) "k" ≠ some (.vStr "secret") := by
  obtain ⟨a, b, c⟩ := claim_C1_secure_roundtrip testEnv "k" "secret"
    ⟨none, []⟩ rfl testEnv_roundtrip
  exact ⟨a, b, c (by decide)⟩

/-- C2: for every key and every stored scalar, a non-secure set followed
by a non-secure get returns the value unchanged. -/
theorem claim_C2_nonsecure_roundtrip (env : Env) (k : String) (v : JValue)
    (w : World) :
    (getStorageValue env k false (setStorageValue env k v false w)).2
      = .ok v := by
  rw [setStorageValue_eq, getStorageValue_eq]
  simp [getPure, docOf_object, docGet_docSet_self, storedRep]

/-- C3 does not hold as stated: for a secure set with encryption
available, the handler receives the already-encoded (hex ciphertext)
value, not the originally supplied one, because the source reassigns
`value` before the write and later calls `handler(value)`.  With `fixEnv`
and `setStorageValue("launchOnStartup", "x", secure=true)` the handler is
invoked with `"00000078"`, not `"x"`. -/
theorem claim_C3_counterexample :
    ¬ (∀ (env : Env) (k : String) (v : JValue) (secure : Bool) (w : World),
        (k ∈ storageValueHandlers →
          evHandlers (setStorageValue env k v secure w).events
            = evHandlers w.events ++ [(k, v)])
        ∧ (k ∉ storageValueHandlers →
          evHandlers (setStorageValue env k v secure w).events
            = evHandlers w.events)) := by
  intro h
  have hc := (h fixEnv "launchOnStartup" (.vStr "x") true ⟨none, []⟩).1
    (by decide)
  exact absurd hc (by decide)

/-- C3 (amended): setting a key with a registered handler invokes that
handler exactly once, after the document write has completed, with the
value as persisted (`storedRep`) — which equals the originally supplied
value unless `secure` is set with encryption available, in which case it
is the hex ciphertext; setting a key with no registered handler invokes
no handler. -/
theorem claim_C3_handler_dispatch (env : Env) (k : String) (v : JValue)
    (secure : Bool) (w : World) :
    (k ∈ storageValueHandlers →
      evHandlers (setStorageValue env k v secure w).events
        = evHandlers w.events ++ [(k, storedRep env secure v)]
      ∧ ∃ pre, evHandlers pre = []
        ∧ (setStorageValue env k v secure w).events
          = w.events ++ pre
            ++ [.wrote (docSet (docOf w.file) k (storedRep env secure v)),
                .logged ("Running handler for key: " ++ k) "Storage",
                .handlerCalled k (storedRep env secure v)])
    ∧ (k ∉ storageValueHandlers →
      evHandlers (setStorageValue env k v secure w).events
        = evHandlers w.events) := by
  rw [setStorageValue_eq]
  constructor
  · intro hk
    constructor
    · simp [evHandlers_append, evHandlers, hk, apply_ite evHandlers]
    · refine ⟨[StoreEvent.logged ("Setting value for key: " ++ k) "Storage"]
        ++ (if secure && !env.isEncryptionAvailable
            then [StoreEvent.logged
              "WARNING: Encryption is not available, storing value as is."
              "Storage"]
            else [])
        ++ (if w.file = none then [StoreEvent.wrote []] else []), ?_, ?_⟩
      · simp [evHandlers_append, evHandlers, apply_ite evHandlers]
      · simp [hk]
  · intro hk
    simp [evHandlers_append, evHandlers, hk, apply_ite evHandlers]

/-- C3 witness: a registered key (`"timeFormat"`) dispatches exactly one
handler call; an unregistered key (`"nope"`) dispatches none. -/
theorem claim_C3_witness :
    ("timeFormat" ∈ storageValueHandlers
      ∧ evHandlers (setStorageValue testEnv "timeFormat" (.vBool true) false
          ⟨some (.object []), []⟩).events
        = [("timeFormat", storedRep testEnv false (.vBool true))])
    ∧ ("nope" ∉ storageValueHandlers
      ∧ evHandlers (setStorageValue testEnv "nope" (.vBool true) false
          ⟨some (.object []), []⟩).events = []) := by
  refine ⟨⟨by decide, ?_⟩, ⟨by decide, ?_⟩⟩
  · have h := (claim_C3_handler_dispatch testEnv "timeFormat" (.vBool true)
      false ⟨some (.object []), []⟩).1 (by decide)
    rw [h.1]
    rfl
  · have h := (claim_C3_handler_dispatch testEnv "nope" (.vBool true)
      false ⟨some (.object []), []⟩).2 (by decide)
    rw [h]
    rfl

/-- C5: when encryption is unavailable, a secure set stores the value
unchanged on disk and logs a warning (the operation completes normally),
and a secure get returns the stored value unchanged with the
corresponding warning, so the secure round-trip still yields `v`. -/
theorem claim_C5_degraded (env : Env) (k : String) (v : JValue) (w : World)
    (hunavail : env.isEncryptionAvailable = false) :
    docGet (docOf (setStorageValue env k v true w).file) k = some v
    ∧ StoreEvent.logged
        "WARNING: Encryption is not available, storing value as is."
        "Storage" ∈ (setStorageValue env k v true w).events
    ∧ (getStorageValue env k true (setStorageValue env k v true w)).2
      = .ok v
    ∧ StoreEvent.logged
        "WARNING: Encryption is not available, returning value as is."
        "Storage"
      ∈ (getStorageValue env k true (setStorageValue env k v true w)).1.events := by
  have hset : docGet (docOf (setStorageValue env k v true w).file) k
      = some v := by
    rw [setStorageValue_eq]
    simp [docOf_object, docGet_docSet_self, storedRep, hunavail]
  refine ⟨hset, ?_, ?_, ?_⟩
  · rw [setStorageValue_eq]
    simp [hunavail]
  · rw [getStorageValue_eq]
    simp [getPure, hset, hunavail]
  · rw [getStorageValue_eq]
    simp [hunavail, hset]

/-- C5 witness: with `testEnvOff` the secure round-trip of a boolean
value stores and returns it unchanged, with both warnings logged. -/
theorem claim_C5_witness :
    docGet (docOf (setStorageValue testEnvOff "k" (.vBool true) true
        ⟨none, []⟩).file) "k" = some (.vBool true)
    ∧ StoreEvent.logged
        "WARNING: Encryption is not available, storing value as is."
        "Storage"
      ∈ (setStorageValue testEnvOff "k" (.vBool true) true ⟨none, []⟩).events
    ∧ (getStorageValue testEnvOff "k" true
        (setStorageValue testEnvOff "k" (.vBool true) true ⟨none, []⟩)).2
      = .ok (.vBool true)
    ∧ StoreEvent.logged
        "WARNING: Encryption is not available, returning value as is."
        "Storage"
      ∈ (getStorageValue testEnvOff "k" true
          (setStorageValue testEnvOff "k" (.vBool true) true
            ⟨none, []⟩)).1.events :=
  claim_C5_degraded testEnvOff "k" (.vBool true) ⟨none, []⟩ rfl

/-- C6: a key absent from the document yields `ok null` (no throw) for
any secure flag; a key present with any stored value — falsy ones
included — yields that stored value on a non-secure get. -/
theorem claim_C6_absent_vs_falsy (env : Env) (k : String) (w : World) :
    (∀ secure, docGet (docOf w.file) k = none →
      (getStorageValue env k secure w).2 = .ok .vNull)
    ∧ (∀ v, docGet (docOf w.file) k = some v →
      (getStorageValue env k false w).2 = .ok v) := by
  constructor
  · intro secure h
    rw [getStorageValue_eq]
    simp [getPure, h]
  · intro v h
    rw [getStorageValue_eq]
    simp [getPure, h]

/-- C6 witness: on the document `{present: false}`, getting `"absent"`
returns `ok null` and getting `"present"` returns the stored `false`. -/
theorem claim_C6_witness :
    (docGet (docOf (World.mk (some (.object [("present", .vBool false)]))
        []).file) "absent" = none
      ∧ (getStorageValue testEnv "absent" true
          ⟨some (.object [("present", .vBool false)]), []⟩).2 = .ok .vNull)
    ∧ (docGet (docOf (World.mk (some (.object [("present", .vBool false)]))
        []).file) "present" = some (.vBool false)
      ∧ (getStorageValue testEnv "present" false
          ⟨some (.object [("present", .vBool false)]), []⟩).2
        = .ok (.vBool false)) := by
  refine ⟨⟨by decide, ?_⟩, ⟨by decide, ?_⟩⟩
  · exact (claim_C6_absent_vs_falsy testEnv "absent"
      ⟨some (.object [("present", .vBool false)]), []⟩).1 true (by decide)
  · exact (claim_C6_absent_vs_falsy testEnv "present"
      ⟨some (.object [("present", .vBool false)]), []⟩).2 (.vBool false)
      (by decide)

/-- C4: with a roundtrip-correct capability and a non-empty generated
secret, two sequential `getSocketPassword()` calls return the same
result; the second call leaves the file untouched and performs no
document write; and any later call starting from the file the first call
left behind returns that same value. -/
theorem claim_C4_idempotent_provisioning (env : Env) (w : World)
    (hrt : ∀ s, env.decryptString (env.encryptString s) = s)
    (hrand : env.random 64 ≠ "") :
    (getSocketPassword env (getSocketPassword env w).1).2
      = (getSocketPassword env w).2
    ∧ (getSocketPassword env (getSocketPassword env w).1).1.file
      = (getSocketPassword env w).1.file
    ∧ evWrites (getSocketPassword env (getSocketPassword env w).1).1.events
      = evWrites (getSocketPassword env w).1.events
    ∧ (∀ w', w'.file = (getSocketPassword env w).1.file →
        (getSocketPassword env w').2 = (getSocketPassword env w).2) := by
  obtain ⟨h1f, h1r, h1w⟩ := getSocketPassword_spec env w
  obtain ⟨h2f, h2r, h2w⟩ :=
    getSocketPassword_spec env (getSocketPassword env w).1
  obtain ⟨hs1, hs2, hs3, hs4⟩ := gsp_stable_file env w.file hrt hrand
  refine ⟨?_, ?_, ?_, ?_⟩
  · rw [h2r, h1f, hs1, h1r]
  · rw [h2f, h1f, hs2]
  · rw [h2w, h1f, hs3]
    simp [hs4]
  · intro w' hw'
    obtain ⟨h3f, h3r, h3w⟩ := getSocketPassword_spec env w'
    rw [h3r, hw', h1f, hs1, h1r]

/-- C4 witness: starting from a missing file with `testEnv`, the second
call returns the first call's password, writes nothing, leaves the file
as is, and a later call from that file returns the same value. -/
theorem claim_C4_witness :
    ((getSocketPassword testEnv (getSocketPassword testEnv ⟨none, []⟩).1).2
      = (getSocketPassword testEnv ⟨none, []⟩).2)
    ∧ ((getSocketPassword testEnv
        (getSocketPassword testEnv ⟨none, []⟩).1).1.file
      = (getSocketPassword testEnv ⟨none, []⟩).1.file)
    ∧ (evWrites (getSocketPassword testEnv
        (getSocketPassword testEnv ⟨none, []⟩).1).1.events
      = evWrites (getSocketPassword testEnv ⟨none, []⟩).1.events)
    ∧ ((getSocketPassword testEnv
        ⟨(getSocketPassword testEnv ⟨none, []⟩).1.file, []⟩).2
      = (getSocketPassword testEnv ⟨none, []⟩).2) := by
  obtain ⟨a, b, c, d⟩ := claim_C4_idempotent_provisioning testEnv ⟨none, []⟩
    testEnv_roundtrip (by decide)
  exact ⟨a, b, c,
    d ⟨(getSocketPassword testEnv ⟨none, []⟩).1.file, []⟩ rfl⟩

/-- C7: when the backing file holds text that is not a valid JSON
object, reading the document yields the empty document (the read does
not raise and does not modify the file), and `getStorageValue` returns
`ok null` for every key and secure flag. -/
theorem claim_C7_corruption_resilience (env : Env) (k : String)
    (secure : Bool) (w : World) (hinv : w.file = some .invalid) :
    getStorage w = (w, ([] : Doc))
    ∧ (getStorageValue env k secure w).2 = .ok .vNull := by
  constructor
  · rcases w with ⟨file, events⟩
    simp only at hinv
    subst hinv
    simp [getStorage, getStoragePath, safeParse]
  · rw [getStorageValue_eq]
    simp [getPure, hinv, docOf, docGet]

/-- C7 witness: a corrupt file yields the empty document and `ok null`
for the key `"x"`. -/
theorem claim_C7_witness :
    getStorage ⟨some .invalid, []⟩ = (⟨some .invalid, []⟩, ([] : Doc))
    ∧ (getStorageValue testEnv "x" false ⟨some .invalid, []⟩).2
      = .ok .vNull :=
  claim_C7_corruption_resilience testEnv "x" false ⟨some .invalid, []⟩ rfl

/-- C8: `setStorageValue(k, v, secure)` writes back exactly the document
read from disk with only the binding of `k` updated, so every other key
keeps its stored representation. -/
theorem claim_C8_frame (env : Env) (k : String) (v : JValue)
    (secure : Bool) (w : World) (k' : String) (hne : k' ≠ k) :
    (setStorageValue env k v secure w).file
      = some (.object (docSet (docOf w.file) k (storedRep env secure v)))
    ∧ docGet (docOf (setStorageValue env k v secure w).file) k'
      = docGet (docOf w.file) k' := by
  rw [setStorageValue_eq]
  exact ⟨rfl, by simp [docOf_object, docGet_docSet_ne _ _ _ _ hne]⟩

/-- C8 witness: setting `"k"` on `{other: 7}` leaves `"other"` bound to
`7`. -/
theorem claim_C8_witness :
    ((setStorageValue testEnv "k" (.vStr "z") false
        ⟨some (.object [("other", .vNum 7)]), []⟩).file
      = some (.object (docSet
          (docOf (World.mk (some (.object [("other", .vNum 7)])) []).file)
          "k" (storedRep testEnv false (.vStr "z")))))
    ∧ docGet (docOf (setStorageValue testEnv "k" (.vStr "z") false
        ⟨some (.object [("other", .vNum 7)]), []⟩).file) "other"
      = docGet (docOf (World.mk (some (.object [("other", .vNum 7)]))
          []).file) "other" :=
  claim_C8_frame testEnv "k" (.vStr "z") false
    ⟨some (.object [("other", .vNum 7)]), []⟩ "other" (by decide)

/-- C9: with encryption available, a secure set coerces the value with
`String(·)` before encrypting, so the secure get returns the string form
of the value — which differs from the value itself whenever the value
was not a string. -/
theorem claim_C9_string_coercion (env : Env) (k : String) (v : JValue)
    (w : World) (havail : env.isEncryptionAvailable = true)
    (hrt : ∀ s, env.decryptString (env.encryptString s) = s) :
    (getStorageValue env k true (setStorageValue env k v true w)).2
      = .ok (.vStr (jsToString v))
    ∧ (v.isStr = false → JValue.vStr (jsToString v) ≠ v) := by
  constructor
  · rw [setStorageValue_eq, getStorageValue_eq]
    simp [getPure, docOf_object, docGet_docSet_self, storedRep, havail,
      hexDecode_hexOfBytes, hrt]
  · intro h
    cases v <;> simp_all [JValue.isStr]

/-- C9 witness: securely storing the boolean `true` under `testEnv`
yields the string `"true"` on a secure get, not the boolean. -/
theorem claim_C9_witness :
    (getStorageValue testEnv "k" true
        (setStorageValue testEnv "k" (.vBool true) true ⟨none, []⟩)).2
      = .ok (.vStr (jsToString (.vBool true)))
    ∧ JValue.vStr (jsToString (.vBool true)) ≠ .vBool true := by
  obtain ⟨a, b⟩ := claim_C9_string_coercion testEnv "k" (.vBool true)
    ⟨none, []⟩ rfl testEnv_roundtrip
  exact ⟨a, b (by decide)⟩

/-- C10: a non-secure set of `null` followed by a non-secure get returns
`ok null` — observationally identical to getting a key that is absent
(second conjunct), since the absence check tests only for `undefined`. -/
theorem claim_C10_null_indistinguishable (env : Env) (k : String)
    (w : World) :
    (getStorageValue env k false (setStorageValue env k .vNull false w)).2
      = .ok .vNull
    ∧ (getStorageValue env k false ⟨some (.object []), []⟩).2
      = .ok .vNull := by
  constructor
  · rw [setStorageValue_eq, getStorageValue_eq]
    simp [getPure, docOf_object, docGet_docSet_self, storedRep]
  · rw [getStorageValue_eq]
    simp [getPure, docOf, docGet]
